import Mathlib

/-! Verification of the dashboard-search-ui core: a shallow embedding of the
search-command orchestrator, the search-agent chat surface, the chat state
hook helpers, and the message-bubble tool rendering, together with theorems
checking the documented behavior against that embedding. -/

namespace DashboardSearch

/-- Message author role, from the chat SDK's UIMessage (role: "user" | "assistant"). -/
inductive Role where
  | user
  | assistant
deriving DecidableEq, Repr

/-- Chat transport status exposed by the chat hook
(status: "ready" | "submitted" | "streaming" | "error"). -/
inductive ChatStatus where
  | ready
  | submitted
  | streaming
  | error
deriving DecidableEq, Repr

/-- Model of a JavaScript value carried in a tool part's output field. -/
inductive JsVal where
  | vBool (b : Bool)
  | vStr (s : String)
deriving DecidableEq, Repr

/-- JavaScript truthiness of a modelled value. -/
def JsVal.truthy : JsVal → Bool
  | .vBool b => b
  | .vStr s => decide (¬s = "")

/-- JavaScript truthiness of a possibly absent value (undefined and null are falsy). -/
def jsOptTruthy : Option JsVal → Bool
  | none => false
  | some v => v.truthy

/-- One message part. The chat SDK uses plain objects with a string type tag:
"text" parts carry text, "tool-(name)" parts carry toolCallId, state and output.
We embed the union as one total record; fields that a given tag does not use
keep their defaults (mirroring absent fields of the JS object). -/
structure MessagePart where
  type : String
  text : String := ""
  toolCallId : Option String := none
  state : Option String := none
  output : Option JsVal := none
deriving DecidableEq, Repr

/-- A chat message as consumed by this library (UIMessage of the chat SDK). -/
structure UIMessage where
  id : String
  role : Role
  parts : List MessagePart
deriving DecidableEq, Repr

/-- Trim on a character list: drop leading and trailing whitespace. -/
def trimL (l : List Char) : List Char :=
  ((l.dropWhile Char.isWhitespace).reverse.dropWhile Char.isWhitespace).reverse

/-- Model of JavaScript String.prototype.trim. -/
def jsTrim (s : String) : String :=
  String.mk (trimL s.data)

/-- getTextContent from useSearchAgent (part_012 lines 218-225): concatenate
the text of all text-typed parts in order. -/
def getTextContent (message : UIMessage) : String :=
  String.join ((message.parts.filter (fun part => part.type = "text")).map
    (fun part => part.text))

/-- Tool call information extracted from a message part (part_012 lines 9-14). -/
structure ToolCallInfo where
  type : String
  toolCallId : Option String
  state : Option String
  output : Option JsVal
deriving DecidableEq, Repr

/-- Prefix test on character lists. -/
def isPrefixOfL : List Char → List Char → Bool
  | [], _ => true
  | _ :: _, [] => false
  | c :: cs, d :: ds => decide (c = d) && isPrefixOfL cs ds

/-- Model of JavaScript String.prototype.startsWith. -/
def strStartsWith (s pre : String) : Bool :=
  isPrefixOfL pre.data s.data

/-- getToolCalls from useSearchAgent (part_012 lines 228-240): all parts whose
type starts with "tool-", projected to ToolCallInfo. -/
def getToolCalls (message : UIMessage) : List ToolCallInfo :=
  (message.parts.filter (fun part => strStartsWith part.type "tool-")).map
    (fun part => ⟨part.type, part.toolCallId, part.state, part.output⟩)

/-- hasContent from useSearchAgent (part_012 lines 243-250):
nonblank text content or at least one tool call. -/
def hasContent (message : UIMessage) : Bool :=
  decide (0 < (jsTrim (getTextContent message)).length) ||
    decide (0 < (getToolCalls message).length)

/-- isProcessing from useSearchAgent (part_012 line 177). -/
def isProcessing (status : ChatStatus) : Bool :=
  decide (status = ChatStatus.streaming) || decide (status = ChatStatus.submitted)

/-- showLoadingIndicator from SearchAgent (part_008 lines 240-253): false unless
processing; true when there are no messages or the last message is the user's;
for a trailing assistant message, true exactly while it has no content. -/
def showLoadingIndicator (processing : Bool) (messages : List UIMessage) : Bool :=
  if !processing then false
  else
    match messages.getLast? with
    | none => true
    | some lastMessage =>
      if lastMessage.role = Role.user then true
      else !(hasContent lastMessage)

theorem forall_mem_dropWhile_iff (p : Char → Bool) (l : List Char) :
    (∀ c ∈ l.dropWhile p, p c = true) ↔ (∀ c ∈ l, p c = true) := by
  induction l with
  | nil => simp
  | cons a l ih =>
    by_cases h : p a = true <;> simp [List.dropWhile_cons, h, ih]

theorem trimL_eq_nil_iff (l : List Char) :
    trimL l = [] ↔ ∀ c ∈ l, c.isWhitespace = true := by
  unfold trimL
  rw [List.reverse_eq_nil_iff, List.dropWhile_eq_nil_iff]
  constructor
  · intro h c hc
    exact (forall_mem_dropWhile_iff _ _).mp (fun d hd => h d (List.mem_reverse.mpr hd)) c hc
  · intro h c hc
    exact (forall_mem_dropWhile_iff Char.isWhitespace l).mpr h c (List.mem_reverse.mp hc)

theorem jsTrim_length_pos_iff (s : String) :
    0 < (jsTrim s).length ↔ ∃ c ∈ s.data, c.isWhitespace = false := by
  have hlen : (jsTrim s).length = (trimL s.data).length := rfl
  rw [hlen, List.length_pos, ne_eq]
  rw [show (trimL s.data = [] ↔ ∀ c ∈ s.data, c.isWhitespace = true) from trimL_eq_nil_iff s.data]
  push_neg
  constructor
  · rintro ⟨c, hc, hw⟩
    exact ⟨c, hc, by simpa using hw⟩
  · rintro ⟨c, hc, hw⟩
    exact ⟨c, hc, by simp [hw]⟩

/-- C5: hasContent is true exactly when the message has a tool part or its
concatenated text has a non-whitespace character, hence false exactly when the
text is whitespace-only and there are no tool parts. -/
theorem c5_hasContent_spec (m : UIMessage) :
    (hasContent m = true ↔
      (getToolCalls m ≠ [] ∨ ∃ c ∈ (getTextContent m).data, c.isWhitespace = false)) ∧
    (hasContent m = false ↔
      (getToolCalls m = [] ∧ ∀ c ∈ (getTextContent m).data, c.isWhitespace = true)) := by
  have h1 : hasContent m = true ↔
      (getToolCalls m ≠ [] ∨ ∃ c ∈ (getTextContent m).data, c.isWhitespace = false) := by
    unfold hasContent
    rw [Bool.or_eq_true, decide_eq_true_iff, decide_eq_true_iff]
    rw [jsTrim_length_pos_iff, List.length_pos, ne_eq]
    rw [or_comm]
  refine ⟨h1, ?_⟩
  rw [← Bool.not_eq_true, h1]
  push_neg
  constructor
  · rintro ⟨ht, hw⟩
    exact ⟨ht, fun c hc => by simpa using hw c hc⟩
  · rintro ⟨ht, hw⟩
    exact ⟨ht, fun c hc => by simp [hw c hc]⟩

/-- C4: the loading indicator is visible exactly when the status is submitted
or streaming and the message list is empty, ends with a user message, or ends
with an assistant message that has no content yet. -/
theorem c4_showLoadingIndicator_spec (status : ChatStatus) (messages : List UIMessage) :
    showLoadingIndicator (isProcessing status) messages = true ↔
      ((status = ChatStatus.submitted ∨ status = ChatStatus.streaming) ∧
        (messages = [] ∨
          ∃ lastMessage, messages.getLast? = some lastMessage ∧
            (lastMessage.role = Role.user ∨
              (lastMessage.role = Role.assistant ∧ hasContent lastMessage = false)))) := by
  cases hl : messages.getLast? with
  | none =>
    have hmsg : messages = [] := by
      cases messages with
      | nil => rfl
      | cons a l => simp [List.getLast?] at hl
    subst hmsg
    cases status <;> simp [showLoadingIndicator, isProcessing]
  | some lastMessage =>
    have hne : messages ≠ [] := by
      intro h
      subst h
      simp at hl
    cases hrole : lastMessage.role with
    | user =>
      cases status <;>
        simp [showLoadingIndicator, isProcessing, hl, hrole, hne]
    | assistant =>
      cases status <;>
        simp [showLoadingIndicator, isProcessing, hl, hrole, hne]

/-- Escape one character as in a JSON string literal (model of JSON.stringify:
quote and backslash receive a backslash escape). -/
def escChar (c : Char) : List Char :=
  if c = '"' ∨ c = '\\' then ['\\', c] else [c]

/-- Escape a whole character list. -/
def escList : List Char → List Char
  | [] => []
  | c :: cs => escChar c ++ escList cs

/-- Encode a string as a JSON string literal. -/
def encStr (s : String) : List Char :=
  '"' :: (escList s.data ++ ['"'])

/-- Parse the body of a JSON string literal, after its opening quote. -/
def parseStrBody : List Char → Option (List Char × List Char)
  | [] => none
  | '"' :: cs => some ([], cs)
  | '\\' :: [] => none
  | '\\' :: d :: ds => (parseStrBody ds).map (fun p => (d :: p.1, p.2))
  | c :: cs => (parseStrBody cs).map (fun p => (c :: p.1, p.2))

/-- Parse a JSON string literal. -/
def parseStr (input : List Char) : Option (String × List Char) :=
  match input with
  | [] => none
  | c :: rest =>
    if c = '"' then (parseStrBody rest).map (fun p => (String.mk p.1, p.2))
    else none

/-- Consume an expected literal prefix. -/
def expectLit : List Char → List Char → Option (List Char)
  | [], input => some input
  | _ :: _, [] => none
  | c :: cs, d :: ds => if c = d then expectLit cs ds else none

theorem expectLit_append (lit r : List Char) : expectLit lit (lit ++ r) = some r := by
  induction lit with
  | nil => rfl
  | cons c cs ih => simp [expectLit, ih]

theorem parseStrBody_quote (cs : List Char) :
    parseStrBody ('"' :: cs) = some ([], cs) := rfl

theorem parseStrBody_esc (d : Char) (ds : List Char) :
    parseStrBody ('\\' :: d :: ds) =
      (parseStrBody ds).map (fun p => (d :: p.1, p.2)) := rfl

theorem parseStrBody_other (c : Char) (cs : List Char)
    (hq : ¬c = '"') (hb : ¬c = '\\') :
    parseStrBody (c :: cs) = (parseStrBody cs).map (fun p => (c :: p.1, p.2)) := by
  rcases cs with _ | ⟨d, ds⟩ <;> simp [parseStrBody, hq, hb]

theorem parseStrBody_round (s : List Char) (rest : List Char) :
    parseStrBody (escList s ++ '"' :: rest) = some (s, rest) := by
  induction s with
  | nil =>
    rw [show escList [] ++ '"' :: rest = '"' :: rest from rfl]
    exact parseStrBody_quote rest
  | cons c cs ih =>
    by_cases h : c = '"' ∨ c = '\\'
    · have he : escList (c :: cs) ++ '"' :: rest =
          '\\' :: c :: (escList cs ++ '"' :: rest) := by
        simp [escList, escChar, h]
      rw [he, parseStrBody_esc, ih]
      rfl
    · have hq : ¬c = '"' := fun hc => h (Or.inl hc)
      have hb : ¬c = '\\' := fun hc => h (Or.inr hc)
      have he : escList (c :: cs) ++ '"' :: rest =
          c :: (escList cs ++ '"' :: rest) := by
        simp [escList, escChar, h]
      rw [he, parseStrBody_other c _ hq hb, ih]
      rfl

theorem parseStr_cons (c : Char) (cs : List Char) :
    parseStr (c :: cs) =
      if c = '"' then (parseStrBody cs).map (fun p => (String.mk p.1, p.2))
      else none := rfl

theorem parseStr_round (s : String) (rest : List Char) :
    parseStr (encStr s ++ rest) = some (s, rest) := by
  have he : encStr s ++ rest = '"' :: (escList s.data ++ '"' :: rest) := by
    simp [encStr]
  rw [he, parseStr_cons, if_pos rfl, parseStrBody_round]
  rfl

/-- The JSON null literal. -/
def litNull : List Char := ['n', 'u', 'l', 'l']

/-- Encode an optional string; an absent field is written as null. -/
def encOptStr : Option String → List Char
  | none => litNull
  | some s => encStr s

/-- Parse an optional string field. -/
def parseOptStr (input : List Char) : Option (Option String × List Char) :=
  match input with
  | [] => none
  | c :: rest =>
    if c = 'n' then
      (expectLit ['u', 'l', 'l'] rest).map (fun r => ((none : Option String), r))
    else (parseStr (c :: rest)).map (fun p => (some p.1, p.2))

theorem parseOptStr_cons (c : Char) (cs : List Char) :
    parseOptStr (c :: cs) =
      if c = 'n' then
        (expectLit ['u', 'l', 'l'] cs).map (fun r => ((none : Option String), r))
      else (parseStr (c :: cs)).map (fun p => (some p.1, p.2)) := rfl

theorem parseOptStr_round (o : Option String) (rest : List Char) :
    parseOptStr (encOptStr o ++ rest) = some (o, rest) := by
  cases o with
  | none =>
    have he : encOptStr none ++ rest = 'n' :: (['u', 'l', 'l'] ++ rest) := by
      simp [encOptStr, litNull]
    rw [he, parseOptStr_cons, if_pos rfl, expectLit_append]
    rfl
  | some s =>
    have he : encOptStr (some s) ++ rest = '"' :: (escList s.data ++ '"' :: rest) := by
      simp [encOptStr, encStr]
    rw [he, parseOptStr_cons, if_neg (by decide)]
    rw [show ('"' :: (escList s.data ++ '"' :: rest)) = encStr s ++ rest from by simp [encStr]]
    rw [parseStr_round]
    rfl

/-- Encode a modelled JavaScript value. -/
def encJsVal : JsVal → List Char
  | .vBool true => ['t', 'r', 'u', 'e']
  | .vBool false => ['f', 'a', 'l', 's', 'e']
  | .vStr s => encStr s

/-- Parse a modelled JavaScript value. -/
def parseJsVal (input : List Char) : Option (JsVal × List Char) :=
  match input with
  | [] => none
  | c :: rest =>
    if c = 't' then
      (expectLit ['r', 'u', 'e'] rest).map (fun r => (JsVal.vBool true, r))
    else if c = 'f' then
      (expectLit ['a', 'l', 's', 'e'] rest).map (fun r => (JsVal.vBool false, r))
    else (parseStr (c :: rest)).map (fun p => (JsVal.vStr p.1, p.2))

theorem parseJsVal_cons (c : Char) (cs : List Char) :
    parseJsVal (c :: cs) =
      if c = 't' then
        (expectLit ['r', 'u', 'e'] cs).map (fun r => (JsVal.vBool true, r))
      else if c = 'f' then
        (expectLit ['a', 'l', 's', 'e'] cs).map (fun r => (JsVal.vBool false, r))
      else (parseStr (c :: cs)).map (fun p => (JsVal.vStr p.1, p.2)) := rfl

theorem parseJsVal_round (v : JsVal) (rest : List Char) :
    parseJsVal (encJsVal v ++ rest) = some (v, rest) := by
  cases v with
  | vBool b =>
    cases b with
    | true =>
      rw [show encJsVal (JsVal.vBool true) ++ rest =
        't' :: (['r', 'u', 'e'] ++ rest) from by simp [encJsVal]]
      rw [parseJsVal_cons, if_pos rfl, expectLit_append]
      rfl
    | false =>
      rw [show encJsVal (JsVal.vBool false) ++ rest =
        'f' :: (['a', 'l', 's', 'e'] ++ rest) from by simp [encJsVal]]
      rw [parseJsVal_cons, if_neg (by decide), if_pos rfl, expectLit_append]
      rfl
  | vStr s =>
    rw [show encJsVal (JsVal.vStr s) ++ rest =
      '"' :: (escList s.data ++ '"' :: rest) from by simp [encJsVal, encStr]]
    rw [parseJsVal_cons, if_neg (by decide), if_neg (by decide)]
    rw [show ('"' :: (escList s.data ++ '"' :: rest)) = encStr s ++ rest from by simp [encStr]]
    rw [parseStr_round]
    rfl

/-- Encode an optional JavaScript value. -/
def encOptJs : Option JsVal → List Char
  | none => litNull
  | some v => encJsVal v

/-- Parse an optional JavaScript value. -/
def parseOptJs (input : List Char) : Option (Option JsVal × List Char) :=
  match input with
  | [] => none
  | c :: rest =>
    if c = 'n' then
      (expectLit ['u', 'l', 'l'] rest).map (fun r => ((none : Option JsVal), r))
    else (parseJsVal (c :: rest)).map (fun p => (some p.1, p.2))

theorem encJsVal_head_ne (v : JsVal) : ∃ c cs, encJsVal v = c :: cs ∧ ¬c = 'n' := by
  cases v with
  | vBool b => cases b <;> exact ⟨_, _, rfl, by decide⟩
  | vStr s => exact ⟨_, _, rfl, by decide⟩

theorem parseOptJs_cons (c : Char) (cs : List Char) :
    parseOptJs (c :: cs) =
      if c = 'n' then
        (expectLit ['u', 'l', 'l'] cs).map (fun r => ((none : Option JsVal), r))
      else (parseJsVal (c :: cs)).map (fun p => (some p.1, p.2)) := rfl

theorem parseOptJs_round (o : Option JsVal) (rest : List Char) :
    parseOptJs (encOptJs o ++ rest) = some (o, rest) := by
  cases o with
  | none =>
    rw [show encOptJs none ++ rest = 'n' :: (['u', 'l', 'l'] ++ rest) from by
      simp [encOptJs, litNull]]
    rw [parseOptJs_cons, if_pos rfl, expectLit_append]
    rfl
  | some v =>
    obtain ⟨c, cs, he, hc⟩ := encJsVal_head_ne v
    rw [show encOptJs (some v) ++ rest = c :: (cs ++ rest) from by simp [encOptJs, he]]
    rw [parseOptJs_cons, if_neg hc]
    rw [show (c :: (cs ++ rest)) = encJsVal v ++ rest from by simp [he]]
    rw [parseJsVal_round]
    rfl

/-- Encode a role as its JSON string. -/
def encRole : Role → List Char
  | .user => encStr "user"
  | .assistant => encStr "assistant"

/-- Parse a role string. -/
def parseRole (input : List Char) : Option (Role × List Char) :=
  match parseStr input with
  | none => none
  | some (s, r) =>
    if s = "user" then some (Role.user, r)
    else if s = "assistant" then some (Role.assistant, r)
    else none

theorem parseRole_def (input : List Char) :
    parseRole input =
      match parseStr input with
      | none => none
      | some (s, r) =>
        if s = "user" then some (Role.user, r)
        else if s = "assistant" then some (Role.assistant, r)
        else none := rfl

theorem parseRole_round (role : Role) (rest : List Char) :
    parseRole (encRole role ++ rest) = some (role, rest) := by
  cases role with
  | user =>
    rw [show encRole Role.user ++ rest = encStr "user" ++ rest from rfl]
    rw [parseRole_def, parseStr_round]
    simp
  | assistant =>
    rw [show encRole Role.assistant ++ rest = encStr "assistant" ++ rest from rfl]
    rw [parseRole_def, parseStr_round]
    simp

/-- Encode the items of a nonempty JSON array (everything after the opening
bracket): comma-separated items followed by the closing bracket. -/
def encItemsTail (enc : α → List Char) : α → List α → List Char
  | x, [] => enc x ++ [']']
  | x, y :: ys => enc x ++ ',' :: encItemsTail enc y ys

/-- Encode a JSON array. -/
def encArr (enc : α → List Char) : List α → List Char
  | [] => ['[', ']']
  | x :: xs => '[' :: encItemsTail enc x xs

/-- Parse the items of a nonempty JSON array, with fuel bounding the number
of items. -/
def parseItemsAux (parseItem : List Char → Option (α × List Char)) :
    Nat → List Char → Option (List α × List Char)
  | 0, _ => none
  | fuel + 1, input =>
    match parseItem input with
    | none => none
    | some (x, rest) =>
      match rest with
      | [] => none
      | c :: rest2 =>
        if c = ',' then
          match parseItemsAux parseItem fuel rest2 with
          | none => none
          | some (xs, r) => some (x :: xs, r)
        else if c = ']' then some ([x], rest2)
        else none

/-- Parse a JSON array. -/
def parseArr (parseItem : List Char → Option (α × List Char))
    (input : List Char) : Option (List α × List Char) :=
  match input with
  | [] => none
  | c :: rest =>
    if c = '[' then
      match rest with
      | [] => none
      | d :: rest2 =>
        if d = ']' then some (([] : List α), rest2)
        else parseItemsAux parseItem (d :: rest2).length (d :: rest2)
    else none

theorem parseItemsAux_succ (parseItem : List Char → Option (α × List Char))
    (fuel : Nat) (input : List Char) :
    parseItemsAux parseItem (fuel + 1) input =
      match parseItem input with
      | none => none
      | some (x, rest) =>
        match rest with
        | [] => none
        | c :: rest2 =>
          if c = ',' then
            match parseItemsAux parseItem fuel rest2 with
            | none => none
            | some (xs, r) => some (x :: xs, r)
          else if c = ']' then some ([x], rest2)
          else none := rfl

theorem parseItemsAux_round (parseItem : List Char → Option (α × List Char))
    (enc : α → List Char)
    (hround : ∀ x r, parseItem (enc x ++ r) = some (x, r)) :
    ∀ (xs : List α) (x : α) (fuel : Nat) (r : List Char), xs.length < fuel →
      parseItemsAux parseItem fuel (encItemsTail enc x xs ++ r) = some (x :: xs, r) := by
  intro xs
  induction xs with
  | nil =>
    intro x fuel r hf
    cases fuel with
    | zero => omega
    | succ fuel =>
      rw [show encItemsTail enc x [] ++ r = enc x ++ (']' :: r) from by
        simp [encItemsTail]]
      rw [parseItemsAux_succ, hround]
      simp
  | cons y ys ih =>
    intro x fuel r hf
    cases fuel with
    | zero => omega
    | succ fuel =>
      rw [show encItemsTail enc x (y :: ys) ++ r =
        enc x ++ (',' :: (encItemsTail enc y ys ++ r)) from by simp [encItemsTail]]
      rw [parseItemsAux_succ, hround]
      have hys : ys.length < fuel := by
        simp at hf
        omega
      simp [ih y fuel r hys]

theorem encItemsTail_length (enc : α → List Char) (hlen : ∀ x, 0 < (enc x).length) :
    ∀ (xs : List α) (x : α), xs.length < (encItemsTail enc x xs).length := by
  intro xs
  induction xs with
  | nil =>
    intro x
    have := hlen x
    simp [encItemsTail]
  | cons y ys ih =>
    intro x
    have h1 := hlen x
    have h2 := ih y
    simp only [encItemsTail, List.length_append, List.length_cons, List.length]
    omega

theorem parseArr_round (parseItem : List Char → Option (α × List Char))
    (enc : α → List Char)
    (hround : ∀ x r, parseItem (enc x ++ r) = some (x, r))
    (hlen : ∀ x, 0 < (enc x).length)
    (hhead : ∀ x, (enc x).head? ≠ some ']')
    (l : List α) (r : List Char) :
    parseArr parseItem (encArr enc l ++ r) = some (l, r) := by
  cases l with
  | nil =>
    rw [show encArr enc ([] : List α) ++ r = '[' :: ']' :: r from by simp [encArr]]
    simp [parseArr]
  | cons x xs =>
    obtain ⟨c, cs, he⟩ : ∃ c cs, enc x = c :: cs := by
      cases hx : enc x with
      | nil =>
        have := hlen x
        rw [hx] at this
        simp at this
      | cons c cs => exact ⟨c, cs, rfl⟩
    have hc : ¬c = ']' := by
      have := hhead x
      rw [he] at this
      simp at this
      exact this
    obtain ⟨t, ht⟩ : ∃ t, encItemsTail enc x xs = enc x ++ t := by
      cases xs <;> exact ⟨_, rfl⟩
    have hform : encArr enc (x :: xs) ++ r =
        '[' :: c :: (cs ++ t ++ r) := by
      simp [encArr, ht, he]
    rw [hform, parseArr]
    rw [if_pos rfl, if_neg hc]
    have hback : c :: (cs ++ t ++ r) = encItemsTail enc x xs ++ r := by
      simp [ht, he]
    rw [hback]
    have hfuel : xs.length < (encItemsTail enc x xs ++ r).length := by
      have := encItemsTail_length enc hlen xs x
      simp only [List.length_append]
      omega
    exact parseItemsAux_round parseItem enc hround xs x _ r hfuel

/-- Key literal opening the JSON object of a message part. -/
def litPartOpen : List Char := ['\x7b', '"', 't', 'y', 'p', 'e', '"', ':']

/-- Key literal for the text field. -/
def litText : List Char := [',', '"', 't', 'e', 'x', 't', '"', ':']

/-- Key literal for the toolCallId field. -/
def litToolCallId : List Char :=
  [',', '"', 't', 'o', 'o', 'l', 'C', 'a', 'l', 'l', 'I', 'd', '"', ':']

/-- Key literal for the state field. -/
def litState : List Char := [',', '"', 's', 't', 'a', 't', 'e', '"', ':']

/-- Key literal for the output field. -/
def litOutput : List Char := [',', '"', 'o', 'u', 't', 'p', 'u', 't', '"', ':']

/-- Key literal opening the JSON object of a message. -/
def litMsgOpen : List Char := ['\x7b', '"', 'i', 'd', '"', ':']

/-- Key literal for the role field. -/
def litRole : List Char := [',', '"', 'r', 'o', 'l', 'e', '"', ':']

/-- Key literal for the parts field. -/
def litParts : List Char := [',', '"', 'p', 'a', 'r', 't', 's', '"', ':']

/-- Closing brace of a JSON object. -/
def litClose : List Char := ['\x7d']

/-- Encode one message part as a JSON object. -/
def encPart (p : MessagePart) : List Char :=
  litPartOpen ++ (encStr p.type ++ (litText ++ (encStr p.text ++
    (litToolCallId ++ (encOptStr p.toolCallId ++ (litState ++
      (encOptStr p.state ++ (litOutput ++ (encOptJs p.output ++ litClose)))))))))

/-- Parse one message part. -/
def parsePart (input : List Char) : Option (MessagePart × List Char) :=
  match expectLit litPartOpen input with
  | none => none
  | some r1 =>
    match parseStr r1 with
    | none => none
    | some (ptype, r2) =>
      match expectLit litText r2 with
      | none => none
      | some r3 =>
        match parseStr r3 with
        | none => none
        | some (ptext, r4) =>
          match expectLit litToolCallId r4 with
          | none => none
          | some r5 =>
            match parseOptStr r5 with
            | none => none
            | some (pToolCallId, r6) =>
              match expectLit litState r6 with
              | none => none
              | some r7 =>
                match parseOptStr r7 with
                | none => none
                | some (pState, r8) =>
                  match expectLit litOutput r8 with
                  | none => none
                  | some r9 =>
                    match parseOptJs r9 with
                    | none => none
                    | some (pOutput, r10) =>
                      match expectLit litClose r10 with
                      | none => none
                      | some r11 =>
                        some (⟨ptype, ptext, pToolCallId, pState, pOutput⟩, r11)

theorem parsePart_round (p : MessagePart) (rest : List Char) :
    parsePart (encPart p ++ rest) = some (p, rest) := by
  rw [show encPart p ++ rest =
    litPartOpen ++ (encStr p.type ++ (litText ++ (encStr p.text ++
      (litToolCallId ++ (encOptStr p.toolCallId ++ (litState ++
        (encOptStr p.state ++ (litOutput ++ (encOptJs p.output ++
          (litClose ++ rest)))))))))) from by simp [encPart]]
  rw [parsePart.eq_def]
  simp only [expectLit_append, parseStr_round, parseOptStr_round, parseOptJs_round]

theorem encPart_length (p : MessagePart) : 0 < (encPart p).length := by
  simp [encPart, litPartOpen]

theorem encPart_head (p : MessagePart) : (encPart p).head? ≠ some ']' := by
  simp only [encPart, litPartOpen, List.cons_append, List.head?_cons]
  decide

/-- Encode one message as a JSON object. -/
def encMsg (m : UIMessage) : List Char :=
  litMsgOpen ++ (encStr m.id ++ (litRole ++ (encRole m.role ++
    (litParts ++ (encArr encPart m.parts ++ litClose)))))

/-- Parse one message. -/
def parseMsg (input : List Char) : Option (UIMessage × List Char) :=
  match expectLit litMsgOpen input with
  | none => none
  | some r1 =>
    match parseStr r1 with
    | none => none
    | some (mid, r2) =>
      match expectLit litRole r2 with
      | none => none
      | some r3 =>
        match parseRole r3 with
        | none => none
        | some (mrole, r4) =>
          match expectLit litParts r4 with
          | none => none
          | some r5 =>
            match parseArr parsePart r5 with
            | none => none
            | some (mparts, r6) =>
              match expectLit litClose r6 with
              | none => none
              | some r7 => some (⟨mid, mrole, mparts⟩, r7)

theorem parseArr_parsePart_round (parts : List MessagePart) (rest : List Char) :
    parseArr parsePart (encArr encPart parts ++ rest) = some (parts, rest) :=
  parseArr_round parsePart encPart parsePart_round encPart_length encPart_head parts rest

theorem parseMsg_round (m : UIMessage) (rest : List Char) :
    parseMsg (encMsg m ++ rest) = some (m, rest) := by
  rw [show encMsg m ++ rest =
    litMsgOpen ++ (encStr m.id ++ (litRole ++ (encRole m.role ++
      (litParts ++ (encArr encPart m.parts ++ (litClose ++ rest)))))) from by
    simp [encMsg]]
  rw [parseMsg.eq_def]
  simp only [expectLit_append, parseStr_round, parseRole_round,
    parseArr_parsePart_round]

theorem encMsg_length (m : UIMessage) : 0 < (encMsg m).length := by
  simp [encMsg, litMsgOpen]

theorem encMsg_head (m : UIMessage) : (encMsg m).head? ≠ some ']' := by
  simp only [encMsg, litMsgOpen, List.cons_append, List.head?_cons]
  decide

/-- Model of JSON.stringify applied to a message list (part_007 line 195). -/
def serializeMessages (messages : List UIMessage) : String :=
  String.mk (encArr encMsg messages)

/-- Model of JSON.parse applied to a stored chat-history snapshot
(part_007 line 181); any leftover input or malformed text fails the parse. -/
def parseMessages (s : String) : Option (List UIMessage) :=
  match parseArr parseMsg s.data with
  | some (messages, []) => some messages
  | _ => none

theorem parseMessages_round (messages : List UIMessage) :
    parseMessages (serializeMessages messages) = some messages := by
  unfold parseMessages serializeMessages
  rw [show (String.mk (encArr encMsg messages)).data =
    encArr encMsg messages ++ [] from by simp]
  rw [parseArr_round parseMsg encMsg parseMsg_round encMsg_length encMsg_head
    messages []]

/-- Quick-search result shape (part_007 lines 21-36). The floating-point score
field plays no role in any verified property, so it is left out. -/
structure SearchResult where
  id : String
  title : String
  snippet : Option String := none
deriving DecidableEq, Repr

/-- UI mode of the SearchCommand surface ("quick" | "agent", part_007 line 167). -/
inductive UIMode where
  | quick
  | agent
deriving DecidableEq, Repr

/-- The session-scoped key-value store (sessionStorage). -/
def Store : Type := String → Option String

/-- sessionStorage.setItem. -/
def setItem (store : Store) (key value : String) : Store :=
  fun k => if k = key then some value else store k

/-- sessionStorage.getItem. -/
def getItem (store : Store) (key : String) : Option String :=
  store key

theorem getItem_setItem (store : Store) (key value : String) :
    getItem (setItem store key value) key = some value := by
  simp [getItem, setItem]

/-- The mutable state owned by SearchCommand (part_007 lines 161-173), bundled
with the session store it writes through to. -/
structure SCWorld where
  query : String
  results : List SearchResult
  isLoading : Bool
  searchType : String
  mode : UIMode
  agentQuery : String
  chatHistory : List UIMessage
  isHydrated : Bool
  store : Store

/-- setChatHistory from SearchCommand (part_007 lines 191-199): update the
in-memory snapshot and, when a storage key is configured, write the serialized
list through to the session store. -/
def setChatHistory (chatHistoryStorageKey : Option String)
    (messages : List UIMessage) (w : SCWorld) : SCWorld :=
  match chatHistoryStorageKey with
  | some key =>
    { w with
        chatHistory := messages
        store := setItem w.store key (serializeMessages messages) }
  | none => { w with chatHistory := messages }

/-- The mount-time hydration effect (part_007 lines 176-188): read the stored
snapshot once; a missing or empty entry, or a parse failure, leaves the
history untouched; the hydrated flag is set in every case. -/
def hydrateChatHistory (chatHistoryStorageKey : Option String) (w : SCWorld) :
    SCWorld :=
  let w2 :=
    match chatHistoryStorageKey with
    | some key =>
      match getItem w.store key with
      | some stored =>
        if stored = "" then w
        else
          match parseMessages stored with
          | some messages => { w with chatHistory := messages }
          | none => w
      | none => w
    | none => w
  { w2 with isHydrated := true }

/-- hasChatHistory from SearchCommand (part_007 line 201). -/
def hasChatHistory (w : SCWorld) : Bool :=
  w.isHydrated && decide (0 < w.chatHistory.length)

/-- Visibility of the Resume Chat affordance: it sits in the quick-mode footer
and renders when agent mode is enabled and a hydrated non-empty history
snapshot exists (part_007 lines 367 and 439-447). -/
def resumeChatVisible (enableAgentMode : Bool) (w : SCWorld) : Bool :=
  decide (w.mode = UIMode.quick) && enableAgentMode && hasChatHistory w

/-- Outcome of one awaited call of the caller-supplied onSearch promise. -/
inductive SearchOutcome where
  | ok (results : List SearchResult)
  | err (message : String)
deriving DecidableEq, Repr

/-- Observable result of running performSearch to completion. -/
structure PerformSearchRun where
  world : SCWorld
  onSearchCalls : Nat
  consoleErrors : List (String × String)

/-- performSearch from SearchCommand (part_007 lines 204-227), run to
completion against the given outcome of the awaited onSearch call: a blank
query clears the results without calling onSearch; otherwise onSearch is
called once; a resolved value replaces the results; a rejection logs
"Search error:" with the error and empties the results; the loading flag is
cleared by the finally block on both paths. -/
def performSearch (outcome : SearchOutcome) (searchQuery : String)
    (w : SCWorld) : PerformSearchRun :=
  if jsTrim searchQuery = "" then
    ⟨{ w with results := [] }, 0, []⟩
  else
    match outcome with
    | .ok searchResults =>
      ⟨{ w with isLoading := false, results := searchResults }, 1, []⟩
    | .err e =>
      ⟨{ w with isLoading := false, results := [] }, 1, [("Search error:", e)]⟩

/-- handleEnterPress from SearchCommand (part_007 lines 255-261): with a
non-blank query, in quick mode, with agent mode enabled, clear the history,
seed the agent query and switch to agent mode; otherwise do nothing. -/
def handleEnterPress (enableAgentMode : Bool)
    (chatHistoryStorageKey : Option String) (w : SCWorld) : SCWorld :=
  if ¬jsTrim w.query = "" ∧ w.mode = UIMode.quick ∧ enableAgentMode = true then
    let w2 := setChatHistory chatHistoryStorageKey [] w
    { w2 with agentQuery := w.query, mode := UIMode.agent }
  else w

/-- handleResumeChat from SearchCommand (part_007 lines 263-266). -/
def handleResumeChat (w : SCWorld) : SCWorld :=
  { w with agentQuery := "", mode := UIMode.agent }

/-- handleClearChatHistory from SearchCommand (part_007 lines 268-271):
empty the history, stay in agent mode. -/
def handleClearChatHistory (chatHistoryStorageKey : Option String)
    (w : SCWorld) : SCWorld :=
  setChatHistory chatHistoryStorageKey [] w

/-- The reset effect that runs when the dialog's open prop turns false
(part_007 lines 241-248): clear the query, the results, the mode and the
agent seed query; nothing else is touched. -/
def resetOnClose (w : SCWorld) : SCWorld :=
  { w with
      query := ""
      results := []
      mode := UIMode.quick
      agentQuery := "" }

/-- The (!initialMessages || initialMessages.length === 0) guard of the
auto-send effect. -/
def noInitialMessages : Option (List UIMessage) → Bool
  | none => true
  | some l => l.isEmpty

/-- One run of the auto-send effect of useSearchAgent (part_012 lines
186-197): send exactly when an initial query exists, the one-shot latch is
unset, the status is ready and there is no pre-existing history; returns the
new latch value and the message texts sent by this run. -/
def autoSendStep (initialQuery : String)
    (initialMessages : Option (List UIMessage)) (sent : Bool)
    (status : ChatStatus) : Bool × List String :=
  if ¬initialQuery = "" ∧ sent = false ∧ status = ChatStatus.ready ∧
      noInitialMessages initialMessages = true then
    (true, [initialQuery])
  else (sent, [])

/-- Per-run send batches of the auto-send effect over a trace of observed
statuses, threading the latch. -/
def autoSendOut (initialQuery : String)
    (initialMessages : Option (List UIMessage)) :
    Bool → List ChatStatus → List (List String)
  | _, [] => []
  | sent, status :: trace =>
    (autoSendStep initialQuery initialMessages sent status).2 ::
      autoSendOut initialQuery initialMessages
        (autoSendStep initialQuery initialMessages sent status).1 trace

/-- A text message part. -/
def textPart (text : String) : MessagePart :=
  { type := "text", text := text }

/-- Model of the chat SDK's sendMessage: append a fresh user message holding
the given text. -/
def sendUserMessage (messages : List UIMessage) (newId : String)
    (text : String) : List UIMessage :=
  messages ++ [{ id := newId, role := Role.user, parts := [textPart text] }]

/-- Index of the latest user message strictly before idx. -/
def precedingUserIdx (messages : List UIMessage) (idx : Nat) : Option Nat :=
  (List.range idx).reverse.find? (fun j =>
    match messages.get? j with
    | some m => decide (m.role = Role.user)
    | none => false)

/-- Modelled from the spec: the SearchAgent revision that handles the
regenerate action emitted by MessageActions is absent from the source
snapshot (only MessageActions itself, the SearchAgent tests and the README
document it). Following spec section 4.2: on a user message at index i, drop
every message from i onward and re-send that message's text, reporting that
message's id with that text; on an assistant message, locate the preceding
user message, drop everything from that user message's index onward and
re-send the user text, reporting the assistant id with the user text. Yields
none when the id is unknown or an assistant message has no preceding user
message; otherwise some (truncated list, re-sent text, reported id, reported
text). -/
def regenerate (messages : List UIMessage) (messageId : String) :
    Option (List UIMessage × String × String × String) :=
  match messages.findIdx? (fun m => decide (m.id = messageId)) with
  | none => none
  | some idx =>
    match messages.get? idx with
    | none => none
    | some m =>
      if m.role = Role.user then
        some (messages.take idx, getTextContent m, m.id, getTextContent m)
      else
        match precedingUserIdx messages idx with
        | none => none
        | some j =>
          match messages.get? j with
          | none => none
          | some u =>
            some (messages.take j, getTextContent u, m.id, getTextContent u)

/-- formatToolName from MessageBubble (part_009 lines 205-210) applied to one
word: charAt(0).toUpperCase() + slice(1). -/
def capitalizeWord (w : String) : String :=
  match w.data with
  | [] => ""
  | c :: cs => String.mk (c.toUpper :: cs)

/-- Model of JavaScript String.prototype.split with a single-character
separator: an empty input gives one empty word, adjacent separators give
empty words. -/
def splitOnChar (sep : Char) : List Char → List (List Char)
  | [] => [[]]
  | c :: cs =>
    if c = sep then [] :: splitOnChar sep cs
    else
      match splitOnChar sep cs with
      | [] => [[c]]
      | w :: ws => (c :: w) :: ws

/-- Model of JavaScript Array.prototype.join. -/
def joinWith (sep : String) : List String → String
  | [] => ""
  | [w] => w
  | w :: ws => w ++ sep ++ joinWith sep ws

/-- formatToolName from MessageBubble (part_009 lines 205-210):
snake_case to Title Case. -/
def formatToolName (toolName : String) : String :=
  joinWith " "
    ((splitOnChar '_' toolName.data).map (fun w => capitalizeWord (String.mk w)))

/-- Tool-name extraction from MessageBubble (part_009 line 130):
type.replace("tool-", ""). Every type reaching this point starts with
"tool-" (the getToolCalls filter), where replacing the first occurrence is
the same as dropping the five-character prefix. -/
def stripToolTag (t : String) : String :=
  if strStartsWith t "tool-" = true then String.mk (t.data.drop 5) else t

/-- Abstract rendering outcome for one tool part of an assistant message. -/
inductive ToolRender where
  | custom (toolName : String) (output : JsVal)
  | generic (done : Bool) (label : String)
deriving DecidableEq, Repr

/-- Whether a rendering outcome delegates to a registered custom renderer. -/
def ToolRender.isCustom : ToolRender → Bool
  | custom _ _ => true
  | generic _ _ => false

/-- Per-tool-part rendering decision of MessageBubble (part_009 lines
128-167): delegate to a registered custom renderer when the state is
"output-available" and the output is truthy, passing the output through;
otherwise show the generic indicator, done exactly when the state is
"output-available", labelled with the humanized tool name. -/
def renderToolPart (renderers : List String) (tool : ToolCallInfo) : ToolRender :=
  match tool.output with
  | some v =>
    if renderers.contains (stripToolTag tool.type) ∧
        tool.state = some "output-available" ∧ v.truthy = true then
      ToolRender.custom (stripToolTag tool.type) v
    else
      ToolRender.generic (decide (tool.state = some "output-available"))
        (formatToolName (stripToolTag tool.type))
  | none =>
    ToolRender.generic (decide (tool.state = some "output-available"))
      (formatToolName (stripToolTag tool.type))

/-- The tool indicators MessageBubble renders for a whole message: tool parts
are rendered only on assistant bubbles (part_009 line 126). -/
def renderedToolIndicators (renderers : List String) (message : UIMessage) :
    List ToolRender :=
  if message.role = Role.user then []
  else (getToolCalls message).map (renderToolPart renderers)

/-- Example message: first user turn. -/
def exU1 : UIMessage := ⟨"1", Role.user, [textPart "first query"]⟩

/-- Example message: first assistant turn. -/
def exA1 : UIMessage := ⟨"2", Role.assistant, [textPart "first response"]⟩

/-- Example message: second user turn. -/
def exU2 : UIMessage := ⟨"3", Role.user, [textPart "follow-up query"]⟩

/-- Example message: second assistant turn. -/
def exA2 : UIMessage := ⟨"4", Role.assistant, [textPart "follow-up response"]⟩

/-- Example SearchCommand world in quick mode with a typed query. -/
def exQuickWorld : SCWorld :=
  ⟨"find pdfs", [], false, "", UIMode.quick, "", [], true, fun _ => none⟩

/-- C1: regenerating the user message with the given id, sitting at index i,
truncates the message list to the first i messages and re-sends that
message's text, reporting that message's id together with its text; the
re-send appends a fresh user message whose text content is exactly that
text. -/
theorem c1_regenerate_user_spec (messages : List UIMessage) (i : Nat)
    (u : UIMessage) (newId : String)
    (hfind : messages.findIdx? (fun m => decide (m.id = u.id)) = some i)
    (hget : messages[i]? = some u)
    (hrole : u.role = Role.user) :
    regenerate messages u.id =
      some (messages.take i, getTextContent u, u.id, getTextContent u) ∧
    sendUserMessage (messages.take i) newId (getTextContent u) =
      messages.take i ++ [⟨newId, Role.user, [textPart (getTextContent u)]⟩] ∧
    getTextContent ⟨newId, Role.user, [textPart (getTextContent u)]⟩ =
      getTextContent u := by
  refine ⟨?_, rfl, rfl⟩
  unfold regenerate
  simp [hfind, hget, hrole]

/-- C1 witness: regenerating u2 (id "3") in [u1, a1, u2, a2] leaves [u1, a1]
and re-sends "follow-up query", reporting ("3", "follow-up query"). -/
theorem c1_regenerate_user_witness :
    [exU1, exA1, exU2, exA2].findIdx? (fun m => decide (m.id = exU2.id)) = some 2 ∧
    regenerate [exU1, exA1, exU2, exA2] exU2.id =
      some ([exU1, exA1], getTextContent exU2, exU2.id, getTextContent exU2) :=
  ⟨by decide,
    (c1_regenerate_user_spec [exU1, exA1, exU2, exA2] 2 exU2 "m-new"
      (by decide) (by decide) (by decide)).1⟩

/-- C2: regenerating the assistant message with the given id, at index i and
preceded by the user message u at index j, truncates the list to the first j
messages, re-sends u's text, and reports the assistant id paired with the
user text. -/
theorem c2_regenerate_assistant_spec (messages : List UIMessage) (i j : Nat)
    (a u : UIMessage)
    (hfind : messages.findIdx? (fun m => decide (m.id = a.id)) = some i)
    (hget : messages[i]? = some a)
    (hrole : a.role = Role.assistant)
    (hj : precedingUserIdx messages i = some j)
    (hgetj : messages[j]? = some u) :
    regenerate messages a.id =
      some (messages.take j, getTextContent u, a.id, getTextContent u) := by
  unfold regenerate
  simp [hfind, hget, hrole, hj, hgetj]

/-- C2 witness: regenerating a1 (id "2") in [u1, a1] leaves [] and re-sends
u1's text, reporting ("2", "first query"). -/
theorem c2_regenerate_assistant_witness :
    precedingUserIdx [exU1, exA1] 1 = some 0 ∧
    regenerate [exU1, exA1] exA1.id =
      some ([], getTextContent exU1, exA1.id, getTextContent exU1) :=
  ⟨by decide,
    by
      have h := c2_regenerate_assistant_spec [exU1, exA1] 1 0 exA1 exU1
        (by decide) (by decide) (by decide) (by decide) (by decide)
      simpa using h⟩

/-- C3: with agent mode enabled, in quick mode, with a non-blank query,
pressing Enter switches to agent mode, empties the in-memory history, clears
the persisted history under the storage key, and seeds the agent with the
typed query, whose auto-send at the first ready status sends exactly that
query as a fresh user message; with agent mode disabled the handler changes
nothing. -/
theorem c3_enter_agent_spec (key : String) (w : SCWorld) (newId : String)
    (hquery : ¬jsTrim w.query = "")
    (hmode : w.mode = UIMode.quick) :
    (handleEnterPress true (some key) w).mode = UIMode.agent ∧
    (handleEnterPress true (some key) w).chatHistory = [] ∧
    (handleEnterPress true (some key) w).agentQuery = w.query ∧
    getItem (handleEnterPress true (some key) w).store key =
      some (serializeMessages []) ∧
    autoSendOut (handleEnterPress true (some key) w).agentQuery
        (some (handleEnterPress true (some key) w).chatHistory) false
        [ChatStatus.ready] = [[w.query]] ∧
    sendUserMessage [] newId w.query = [⟨newId, Role.user, [textPart w.query]⟩] ∧
    getTextContent ⟨newId, Role.user, [textPart w.query]⟩ = w.query ∧
    (∀ w2 : SCWorld, handleEnterPress false (some key) w2 = w2) := by
  have hq : ¬w.query = "" := fun h => hquery (by rw [h]; rfl)
  have hw : handleEnterPress true (some key) w =
      { setChatHistory (some key) [] w with
          agentQuery := w.query
          mode := UIMode.agent } := by
    unfold handleEnterPress
    rw [if_pos ⟨hquery, hmode, rfl⟩]
  refine ⟨by rw [hw], by rw [hw]; rfl, by rw [hw], ?_, ?_, rfl, rfl, ?_⟩
  · rw [hw]
    exact getItem_setItem w.store key (serializeMessages [])
  · rw [hw]
    show autoSendOut w.query (some []) false [ChatStatus.ready] = [[w.query]]
    simp [autoSendOut, autoSendStep, hq, noInitialMessages]
  · intro w2
    unfold handleEnterPress
    rw [if_neg (by simp)]

/-- C3 witness: with query "find pdfs" in quick mode, Enter enters agent mode
seeded with "find pdfs". -/
theorem c3_enter_agent_witness :
    ¬jsTrim exQuickWorld.query = "" ∧
    (handleEnterPress true (some "search-chat-history") exQuickWorld).mode =
      UIMode.agent ∧
    (handleEnterPress true (some "search-chat-history") exQuickWorld).agentQuery =
      "find pdfs" ∧
    autoSendOut "find pdfs" (some []) false [ChatStatus.ready] = [["find pdfs"]] := by
  have h := c3_enter_agent_spec "search-chat-history" exQuickWorld "m-new"
    (by decide) rfl
  exact ⟨by decide, h.1, h.2.2.1, h.2.2.2.2.1⟩

/-- C6: when onSearch rejects on a non-blank query, the failure is caught:
results become empty, the error is logged once, onSearch is not retried, the
resulting component state is identical to a successful empty search (no
user-visible error state), and the loading flag ends cleared on both the
failure and the success path. -/
theorem c6_search_failure_spec (searchQuery e : String) (w : SCWorld)
    (results : List SearchResult)
    (hq : ¬jsTrim searchQuery = "") :
    (performSearch (SearchOutcome.err e) searchQuery w).world.results = [] ∧
    (performSearch (SearchOutcome.err e) searchQuery w).world.isLoading = false ∧
    (performSearch (SearchOutcome.err e) searchQuery w).onSearchCalls = 1 ∧
    (performSearch (SearchOutcome.err e) searchQuery w).consoleErrors =
      [("Search error:", e)] ∧
    (performSearch (SearchOutcome.err e) searchQuery w).world =
      (performSearch (SearchOutcome.ok []) searchQuery w).world ∧
    (performSearch (SearchOutcome.ok results) searchQuery w).world.isLoading =
      false := by
  unfold performSearch
  simp [hq]

/-- C6 witness: a rejected search for "find pdfs" yields empty results, one
logged error, one call, and a cleared loading flag. -/
theorem c6_search_failure_witness :
    ¬jsTrim "find pdfs" = "" ∧
    (performSearch (SearchOutcome.err "network down") "find pdfs"
        exQuickWorld).consoleErrors = [("Search error:", "network down")] ∧
    (performSearch (SearchOutcome.err "network down") "find pdfs"
        exQuickWorld).world.results = [] := by
  have h := c6_search_failure_spec "find pdfs" "network down" exQuickWorld []
    (by decide)
  exact ⟨by decide, h.2.2.2.1, h.1⟩

/-- An example tool part whose output is available but absent/falsy. -/
def exToolNoOutput : ToolCallInfo :=
  ⟨"tool-search_files", some "tc1", some "output-available", none⟩

/-- An example tool part with an available, truthy output. -/
def exToolWithOutput : ToolCallInfo :=
  ⟨"tool-search_files", some "tc1", some "output-available",
    some (JsVal.vStr "hit")⟩

/-- C7 counterexample: a tool part in state "output-available" whose tool name
has a registered renderer but whose output is absent is rendered with the
generic indicator, not the custom renderer, so the claim as stated fails. -/
theorem c7_counterexample :
    ["search_files"].contains (stripToolTag exToolNoOutput.type) = true ∧
    exToolNoOutput.state = some "output-available" ∧
    (renderToolPart ["search_files"] exToolNoOutput).isCustom = false ∧
    renderToolPart ["search_files"] exToolNoOutput =
      ToolRender.generic true "Search Files" := by decide

/-- C7 (amended): the custom renderer is used exactly when one is registered
for the tool name, the state is "output-available" and the output is present
and truthy; it then receives exactly the tool's output; every other tool part
gets the generic indicator, done exactly when output-available, labelled with
the humanized tool name. -/
theorem c7_renderToolPart_spec (renderers : List String) (tool : ToolCallInfo) :
    ((renderToolPart renderers tool).isCustom = true ↔
      (renderers.contains (stripToolTag tool.type) = true ∧
        tool.state = some "output-available" ∧ jsOptTruthy tool.output = true)) ∧
    (∀ name out, renderToolPart renderers tool = ToolRender.custom name out →
      name = stripToolTag tool.type ∧ tool.output = some out) ∧
    ((renderToolPart renderers tool).isCustom = false →
      renderToolPart renderers tool =
        ToolRender.generic (decide (tool.state = some "output-available"))
          (formatToolName (stripToolTag tool.type))) := by
  cases ho : tool.output with
  | none =>
    simp [renderToolPart, ho, jsOptTruthy, ToolRender.isCustom]
  | some v =>
    by_cases h1 : stripToolTag tool.type ∈ renderers <;>
      by_cases h2 : tool.state = some "output-available" <;>
        by_cases h3 : v.truthy = true <;>
          simp [renderToolPart, ho, h1, h2, h3, jsOptTruthy, ToolRender.isCustom]

/-- C7 witness: with a registered renderer, available state and truthy output,
the custom renderer is chosen. -/
theorem c7_renderToolPart_witness :
    (renderToolPart ["search_files"] exToolWithOutput).isCustom = true :=
  (c7_renderToolPart_spec ["search_files"] exToolWithOutput).1.mpr
    ⟨by decide, by decide, by decide⟩

theorem autoSendOut_sent (initialQuery : String)
    (im : Option (List UIMessage)) (trace : List ChatStatus) :
    autoSendOut initialQuery im true trace = trace.map fun _ => [] := by
  induction trace with
  | nil => rfl
  | cons s trace ih =>
    simp [autoSendOut, autoSendStep, ih]

/-- C8: with a non-empty initial query and no pre-existing history, the hook
sends the query exactly once, at the first ready status of the trace, and
never again afterwards; with a non-empty initialMessages list it never sends. -/
theorem c8_autoSend_spec (initialQuery : String)
    (im : Option (List UIMessage)) (pre post : List ChatStatus)
    (sent0 : Bool) (trace : List ChatStatus) :
    (¬initialQuery = "" → noInitialMessages im = true →
      ChatStatus.ready ∉ pre →
      autoSendOut initialQuery im false (pre ++ ChatStatus.ready :: post) =
        (pre.map fun _ => []) ++ [initialQuery] :: (post.map fun _ => [])) ∧
    (noInitialMessages im = false →
      autoSendOut initialQuery im sent0 trace = trace.map fun _ => []) := by
  constructor
  · intro hq him hpre
    induction pre with
    | nil =>
      simp only [List.nil_append, List.map_nil]
      rw [show autoSendOut initialQuery im false (ChatStatus.ready :: post) =
        (autoSendStep initialQuery im false ChatStatus.ready).2 ::
          autoSendOut initialQuery im
            (autoSendStep initialQuery im false ChatStatus.ready).1 post from rfl]
      rw [show autoSendStep initialQuery im false ChatStatus.ready =
        (true, [initialQuery]) from by
          unfold autoSendStep
          rw [if_pos ⟨hq, rfl, rfl, him⟩]]
      rw [autoSendOut_sent]
    | cons s pre ih =>
      have hs : ¬s = ChatStatus.ready := fun h => hpre (by simp [h])
      have hpre2 : ChatStatus.ready ∉ pre := fun h => hpre (by simp [h])
      rw [show (s :: pre) ++ ChatStatus.ready :: post =
        s :: (pre ++ ChatStatus.ready :: post) from rfl]
      rw [show autoSendOut initialQuery im false
          (s :: (pre ++ ChatStatus.ready :: post)) =
        (autoSendStep initialQuery im false s).2 ::
          autoSendOut initialQuery im
            (autoSendStep initialQuery im false s).1
            (pre ++ ChatStatus.ready :: post) from rfl]
      rw [show autoSendStep initialQuery im false s = (false, []) from by
        unfold autoSendStep
        rw [if_neg (fun hc => hs hc.2.2.1)]]
      rw [ih hpre2]
      rfl
  · intro him
    induction trace generalizing sent0 with
    | nil => rfl
    | cons s trace ih =>
      rw [show autoSendOut initialQuery im sent0 (s :: trace) =
        (autoSendStep initialQuery im sent0 s).2 ::
          autoSendOut initialQuery im
            (autoSendStep initialQuery im sent0 s).1 trace from rfl]
      rw [show autoSendStep initialQuery im sent0 s = (sent0, []) from by
        unfold autoSendStep
        rw [if_neg (fun hc => by
          rw [him] at hc
          exact Bool.false_ne_true hc.2.2.2)]]
      rw [ih]
      rfl

/-- C8 witness: over the trace [submitted, ready, streaming, ready] the query
"hello" is sent exactly at the first ready; with pre-existing history nothing
is ever sent. -/
theorem c8_autoSend_witness :
    autoSendOut "hello" none false
        [ChatStatus.submitted, ChatStatus.ready, ChatStatus.streaming,
          ChatStatus.ready] = [[], ["hello"], [], []] ∧
    autoSendOut "hello" (some [exU1]) false
        [ChatStatus.ready, ChatStatus.ready] = [[], []] := by
  constructor
  · have h := (c8_autoSend_spec "hello" none [ChatStatus.submitted]
      [ChatStatus.streaming, ChatStatus.ready] false []).1
      (by decide) rfl (by decide)
    simpa using h
  · have h := (c8_autoSend_spec "hello" (some [exU1]) [] [] false
      [ChatStatus.ready, ChatStatus.ready]).2 (by decide)
    simpa using h

theorem serializeMessages_ne_empty (messages : List UIMessage) :
    ¬serializeMessages messages = "" := by
  unfold serializeMessages
  intro h
  have hd : encArr encMsg messages = [] := by
    have := congrArg String.data h
    simpa using this
  cases messages <;> simp [encArr] at hd

/-- C9: a message list written through the write-through persistence under a
configured key and hydrated on a fresh mount under the same key comes back as
the same ordered message list. -/
theorem c9_history_roundtrip (key : String) (messages : List UIMessage)
    (w wf : SCWorld) :
    (hydrateChatHistory (some key)
        { wf with store := (setChatHistory (some key) messages w).store }).chatHistory
      = messages ∧
    (hydrateChatHistory (some key)
        { wf with store := (setChatHistory (some key) messages w).store }).isHydrated
      = true := by
  have hget : getItem (setChatHistory (some key) messages w).store key =
      some (serializeMessages messages) :=
    getItem_setItem w.store key (serializeMessages messages)
  unfold hydrateChatHistory
  rw [show ({ wf with
      store := (setChatHistory (some key) messages w).store } : SCWorld).store =
    (setChatHistory (some key) messages w).store from rfl] at *
  simp [hget, serializeMessages_ne_empty messages, parseMessages_round]

/-- An example world holding a non-empty hydrated chat history. -/
def exWorldWithHistory : SCWorld :=
  ⟨"q", [], false, "", UIMode.agent, "seed", [exU1], true, fun _ => none⟩

/-- C10 counterexample: with agent mode disabled, after the close reset the
chat history is still non-empty yet the Resume Chat affordance is not
offered, so "offered exactly when the persisted history is non-empty" fails
as stated. -/
theorem c10_counterexample :
    0 < (resetOnClose exWorldWithHistory).chatHistory.length ∧
    (resetOnClose exWorldWithHistory).isHydrated = true ∧
    resumeChatVisible false (resetOnClose exWorldWithHistory) = false := by
  refine ⟨by decide, rfl, rfl⟩

/-- C10 (amended): closing the dialog resets exactly the query, the results,
the mode and the agent seed query, leaving the history snapshot, the session
store and every other field unchanged; afterwards the Resume Chat affordance
shows exactly when agent mode is enabled and the hydrated history snapshot is
non-empty. -/
theorem c10_resetOnClose_spec (enableAgentMode : Bool) (w : SCWorld) :
    (resetOnClose w).query = "" ∧
    (resetOnClose w).results = [] ∧
    (resetOnClose w).mode = UIMode.quick ∧
    (resetOnClose w).agentQuery = "" ∧
    (resetOnClose w).chatHistory = w.chatHistory ∧
    (resetOnClose w).store = w.store ∧
    (resetOnClose w).isLoading = w.isLoading ∧
    (resetOnClose w).searchType = w.searchType ∧
    (resetOnClose w).isHydrated = w.isHydrated ∧
    (resumeChatVisible enableAgentMode (resetOnClose w) = true ↔
      (enableAgentMode = true ∧ w.isHydrated = true ∧
        0 < w.chatHistory.length)) := by
  refine ⟨rfl, rfl, rfl, rfl, rfl, rfl, rfl, rfl, rfl, ?_⟩
  simp [resumeChatVisible, hasChatHistory, resetOnClose]

end DashboardSearch
